import Mathlib

/-!
Shallow embedding of the cosmic_hex editor core (src/hex_view/buffer.rs,
src/hex_view/undo.rs, src/hex_view/mod.rs, src/app/mod.rs) and proofs of the
spec claims about it.

Machine integers (`usize`, `u8`) are modelled as `Nat`; a checked `usize`
subtraction that would underflow, a panicking slice index or a panicking
`unwrap()` is modelled by returning `none` from the operation.  Floating-point
layout quantities are modelled over `ℚ`.
-/

namespace CosmicHex

/-- src/hex_view/mod.rs: `enum EditMode { Hex, Ascii }`. -/
inductive EditMode where
  | Hex : EditMode
  | Ascii : EditMode
deriving DecidableEq

/-- src/hex_view/buffer.rs: `struct DataBuffer { data: Vec<u8> }`. -/
structure DataBuffer where
  data : List Nat
deriving DecidableEq

/-- src/hex_view/buffer.rs `DataBuffer::len`. -/
def DataBuffer.len (b : DataBuffer) : Nat := b.data.length

/-- src/hex_view/buffer.rs `DataBuffer::get_byte`: `self.data[offset]`;
indexing out of range panics (`none`). -/
def DataBuffer.get_byte (b : DataBuffer) (offset : Nat) : Option Nat :=
  b.data.get? offset

/-- src/hex_view/buffer.rs `DataBuffer::set_byte`: `self.data[offset] = value`;
indexing out of range panics (`none`). -/
def DataBuffer.set_byte (b : DataBuffer) (offset value : Nat) : Option DataBuffer :=
  if offset < b.data.length then some ⟨b.data.set offset value⟩ else none

/-- src/hex_view/mod.rs: `struct Cursor` (the rendering fields `blink` and
`focus` are carried along unchanged). -/
structure Cursor where
  position : Nat
  blink : Bool
  focus : Bool
  in_hex : EditMode
deriving DecidableEq

/-- src/hex_view/undo.rs: `struct UndoChangeByte`. -/
structure UndoChangeByte where
  position : Nat
  old_caret_pos : Nat
  old_value : Nat
  new_caret_pos : Nat
  new_value : Nat
deriving DecidableEq

/-- src/hex_view/mod.rs: the `HexView` state that the core claims are about:
cursor, buffer, undo machinery and saved-depth marker.  The purely visual
fields (font, cache, viewport, theme, id, path) do not enter any claim and are
not part of the state; the viewport/font quantities an operation reads are
passed to it as arguments. -/
structure HexView where
  cursor : Cursor
  buffer : Option DataBuffer
  last_save : Nat
  undo_buffer : List UndoChangeByte
  redo_buffer : List UndoChangeByte
deriving DecidableEq

/-- src/hex_view/undo.rs `UndoOperation::undo` for `UndoChangeByte`:
restore `old_value` at `position`, restore the caret. -/
def UndoChangeByte.undo (op : UndoChangeByte) (st : HexView) : Option HexView :=
  match st.buffer with
  | none => some st
  | some b =>
    (b.set_byte op.position op.old_value).map fun b' =>
      { st with buffer := some b', cursor := { st.cursor with position := op.old_caret_pos } }

/-- src/hex_view/undo.rs `UndoOperation::redo` for `UndoChangeByte`:
apply `new_value` at `position`, move the caret to `new_caret_pos`. -/
def UndoChangeByte.redo (op : UndoChangeByte) (st : HexView) : Option HexView :=
  match st.buffer with
  | none => some st
  | some b =>
    (b.set_byte op.position op.new_value).map fun b' =>
      { st with buffer := some b', cursor := { st.cursor with position := op.new_caret_pos } }

/-- src/hex_view/mod.rs `HexView::is_dirty`:
`self.undo_buffer.len() != self.last_save`. -/
def HexView.is_dirty (st : HexView) : Bool :=
  st.undo_buffer.length != st.last_save

/-- src/hex_view/mod.rs `HexView::commit_operation`: apply the operation's redo
action, clear the redo stack, push onto the undo stack.  The stacks are lists
with the head as the top (the `Vec` push/pop end). -/
def HexView.commit_operation (st : HexView) (op : UndoChangeByte) : Option HexView :=
  (op.redo st).map fun s =>
    { s with redo_buffer := [], undo_buffer := op :: s.undo_buffer }

/-- src/hex_view/mod.rs `HexView::undo`: pop the undo stack (no-op when empty),
run the operation's undo action, push the operation onto the redo stack. -/
def HexView.undo (st : HexView) : Option HexView :=
  match st.undo_buffer with
  | [] => some st
  | op :: rest =>
    (op.undo { st with undo_buffer := rest }).map fun s =>
      { s with redo_buffer := op :: s.redo_buffer }

/-- src/hex_view/mod.rs `HexView::redo`: symmetric to `HexView.undo`. -/
def HexView.redo (st : HexView) : Option HexView :=
  match st.redo_buffer with
  | [] => some st
  | op :: rest =>
    (op.redo { st with redo_buffer := rest }).map fun s =>
      { s with undo_buffer := op :: s.undo_buffer }

/-- Result of a save: `Ok(())` or the propagated I/O error. -/
inductive SaveResult where
  | ok : SaveResult
  | ioError : SaveResult
deriving DecidableEq

/-- src/hex_view/mod.rs `HexView::save`:
`if let Some(data) = &self.buffer { self.last_save = self.undo_buffer.len(); std::fs::write(&self.path, &data.data)?; } Ok(())`.
The outcome of the `std::fs::write` call is an input (`ioOk`); note the source
updates `last_save` BEFORE the fallible write, so the state change persists on
failure. -/
def HexView.save (st : HexView) (ioOk : Bool) : HexView × SaveResult :=
  match st.buffer with
  | none => (st, SaveResult.ok)
  | some _ =>
    let st' := { st with last_save := st.undo_buffer.length }
    if ioOk then (st', SaveResult.ok) else (st', SaveResult.ioError)

/-- src/hex_view/mod.rs `Message::MoveCaret`:
`self.cursor.position = position.clamp(0, (self.buffer.as_ref().unwrap().len() - 1) * 2)`.
`none` models the panics: `unwrap()` on a missing buffer, and the checked
`usize` underflow of `len() - 1` on an empty buffer. -/
def HexView.moveCaret (st : HexView) (position : Nat) : Option HexView :=
  match st.buffer with
  | none => none
  | some b =>
    if b.data.length = 0 then none
    else some { st with cursor := { st.cursor with position := min position ((b.data.length - 1) * 2) } }

/-- src/hex_view/mod.rs `Message::PageUp`:
`self.cursor.position.saturating_sub(line_count as usize * numbers_in_row * 2)`.
`line_count` and `numbers_in_row` are the values the handler reads from the
viewport and the layout solver, passed here as arguments. -/
def HexView.pageUp (st : HexView) (line_count numbers_in_row : Nat) : HexView :=
  { st with cursor := { st.cursor with position := st.cursor.position - line_count * numbers_in_row * 2 } }

/-- src/hex_view/mod.rs `Message::PageDown`:
`self.cursor.position += line_count as usize * numbers_in_row * 2;`
`let _ = self.cursor.position.clamp(0, self.buffer.as_ref().unwrap().len());`
— the clamp's result is DISCARDED (`let _ =`), so the addition is unclamped;
the buffer `unwrap()` still panics (`none`) when no buffer is loaded. -/
def HexView.pageDown (st : HexView) (line_count numbers_in_row : Nat) : Option HexView :=
  match st.buffer with
  | none => none
  | some _ =>
    some { st with cursor := { st.cursor with position := st.cursor.position + line_count * numbers_in_row * 2 } }

/-- src/hex_view/mod.rs `Message::SwitchMode`: flip `Hex ⇄ Ascii`. -/
def HexView.switchMode (st : HexView) : HexView :=
  { st with
    cursor :=
      { st.cursor with
        in_hex := match st.cursor.in_hex with
          | EditMode.Hex => EditMode.Ascii
          | EditMode.Ascii => EditMode.Hex } }

/-- Rust `char::is_ascii_hexdigit`: `0-9`, `a-f`, `A-F`. -/
def is_ascii_hexdigit (c : Char) : Bool :=
  c.isDigit || decide (c ≥ 'a' ∧ c ≤ 'f') || decide (c ≥ 'A' ∧ c ≤ 'F')

/-- Rust `char::to_digit(16)`. -/
def to_digit16 (c : Char) : Option Nat :=
  if c.isDigit then some (c.toNat - 48)
  else if c ≥ 'a' ∧ c ≤ 'f' then some (c.toNat - 97 + 10)
  else if c ≥ 'A' ∧ c ≤ 'F' then some (c.toNat - 65 + 10)
  else none

/-- src/hex_view/mod.rs `Message::TypeChar`.  The source reads
`buffer.data[pos]` before any mode/digit test, so an out-of-range cursor
panics (`none`) on every path; in Hex mode a non-hex character then falls
through with no state change, a hex digit replaces the addressed nibble and
commits an `UndoChangeByte`; Ascii mode replaces the whole byte with
`ch as u8`. -/
def HexView.typeChar (st : HexView) (ch : Char) : Option HexView :=
  match st.buffer with
  | none => some st
  | some b =>
    let first_char := st.cursor.position % 2 = 0
    let pos := st.cursor.position / 2
    match b.data.get? pos with
    | none => none
    | some old_byte =>
      match st.cursor.in_hex with
      | EditMode.Hex =>
        if is_ascii_hexdigit ch then
          match to_digit16 ch with
          | none => none
          | some digit =>
            let new_byte :=
              if first_char then (old_byte &&& 0x0F) ||| (digit <<< 4)
              else (old_byte &&& 0xF0) ||| digit
            st.commit_operation
              ⟨pos, st.cursor.position, old_byte, st.cursor.position + 1, new_byte⟩
        else some st
      | EditMode.Ascii =>
        let new_byte := ch.toNat % 256
        st.commit_operation ⟨pos, st.cursor.position, old_byte, pos * 2 + 2, new_byte⟩

/-- Rust `data[i..].starts_with(needle)` for `i ≤ data.length`. -/
def matchAt (data needle : List Nat) (i : Nat) : Bool :=
  needle.isPrefixOf (data.drop i)

/-- The loop of src/hex_view/mod.rs `HexView::find_next`, structured on the
number of remaining iterations: visit `i, i+1, …` while iterations remain. -/
def findNextAux (data needle : List Nat) : Nat → Nat → Option Nat
  | 0, _ => none
  | fuel + 1, i => if matchAt data needle i then some i else findNextAux data needle fuel (i + 1)

/-- The loop of src/hex_view/mod.rs `HexView::find_next`:
`for i in start..len { if data[i..].starts_with(needle) { return i } }`
(the range `start..len` has `len - start` iterations). -/
def findNextFrom (data needle : List Nat) (i : Nat) : Option Nat :=
  findNextAux data needle (data.length - i) i

/-- src/hex_view/mod.rs `HexView::find_next`: scan from `cursor.position / 2`
upward; on a hit set `cursor.position = i * 2` and return `true`.  `none`
models the `unwrap()` panic when no buffer is loaded. -/
def HexView.find_next (st : HexView) (needle : List Nat) : Option (HexView × Bool) :=
  match st.buffer with
  | none => none
  | some b =>
    match findNextFrom b.data needle (st.cursor.position / 2) with
    | some m => some ({ st with cursor := { st.cursor with position := m * 2 } }, true)
    | none => some (st, false)

/-- The loop of src/hex_view/mod.rs `HexView::find_previous`:
`for i in (0..k).rev() { if data[i..].starts_with(needle) { return i } }`.
The argument is the exclusive upper bound; visiting an `i > data.length`
panics on the slice (`none`); `some none` is loop exhaustion without a hit. -/
def findPrevFrom (data needle : List Nat) : Nat → Option (Option Nat)
  | 0 => some none
  | i + 1 =>
    if data.length < i then none
    else if matchAt data needle i then some (some i)
    else findPrevFrom data needle i

/-- src/hex_view/mod.rs `HexView::find_previous`: scan from
`cursor.position / 2 - 1` down to `0`; on a hit set `cursor.position = i * 2`
and return `true`. -/
def HexView.find_previous (st : HexView) (needle : List Nat) : Option (HexView × Bool) :=
  match st.buffer with
  | none => none
  | some b =>
    match findPrevFrom b.data needle (st.cursor.position / 2) with
    | none => none
    | some (some m) => some ({ st with cursor := { st.cursor with position := m * 2 } }, true)
    | some none => some (st, false)

/-- The loop body of src/app/mod.rs `AppModel::get_pattern_needle`, with the
accumulator kept reversed (head = most recently pushed byte).  `i` is the
index of the character in the WHOLE input string (`chars().enumerate()`), so
the parity test `i % 2 == 0` counts skipped non-hex characters too, and the
odd-index branch does `res.pop().unwrap()`, which panics (`none`) when nothing
has been pushed yet. -/
def patternAux : List Char → Nat → List Nat → Option (List Nat)
  | [], _, res => some res
  | c :: cs, i, res =>
    match to_digit16 c with
    | none => patternAux cs (i + 1) res
    | some d =>
      if i % 2 = 0 then patternAux cs (i + 1) ((d <<< 4) :: res)
      else
        match res with
        | [] => none
        | a :: rest => patternAux cs (i + 1) ((a ||| d) :: rest)

/-- src/app/mod.rs `AppModel::get_pattern_needle`. -/
def get_pattern_needle (s : List Char) : Option (List Nat) :=
  (patternAux s 0 []).map List.reverse

/-- src/hex_view/theme.rs `Theme::calc_cell_width`:
`font_measure.width * 2.0 + 5.0` (over `ℚ`). -/
def cell_width (char_w : ℚ) : ℚ := char_w * 2 + 5

/-- src/hex_view/theme.rs `Theme::calc_offset_margin_width`:
`font_measure.width * 8.0 + 10.0`. -/
def offset_margin_width (char_w : ℚ) : ℚ := char_w * 8 + 10

/-- src/hex_view/theme.rs `Theme::hex_ascii_spacing`: `5.0`. -/
def hex_ascii_spacing : ℚ := 5

/-- The exit test of the loop in src/hex_view/mod.rs `HexView::numbers_in_row`:
the row count `i` (reached from `2` upward) makes the row overflow the
available width. -/
def rowExceeds (char_w w : ℚ) (i : Nat) : Prop :=
  2 ≤ i ∧ w < offset_margin_width char_w + (i : ℚ) * cell_width char_w + hex_ascii_spacing + (i : ℚ) * char_w

instance (char_w w : ℚ) : DecidablePred (rowExceeds char_w w) :=
  fun _ => instDecidableAnd

/-- With nonnegative font width the per-byte cost `cell_width + char_w ≥ 5` is
positive, so the loop in `numbers_in_row` terminates: some `i ≥ 2` overflows
the width. -/
theorem rowExceeds_exists (char_w w : ℚ) (h : 0 ≤ char_w) : ∃ i, rowExceeds char_w w i := by
  obtain ⟨n, hn⟩ := exists_nat_gt (max 2 (w / 5))
  refine ⟨n, ?_, ?_⟩
  · have h2 : (2 : ℚ) ≤ (n : ℚ) := le_of_lt (lt_of_le_of_lt (le_max_left _ _) hn)
    exact_mod_cast h2
  · have h5 : w / 5 < (n : ℚ) := lt_of_le_of_lt (le_max_right _ _) hn
    have hw : w < 5 * (n : ℚ) := by linarith [(div_lt_iff₀ (by norm_num : (0:ℚ) < 5)).mp h5]
    have hn0 : (0 : ℚ) ≤ (n : ℚ) := Nat.cast_nonneg n
    unfold offset_margin_width cell_width hex_ascii_spacing
    nlinarith

/-- src/hex_view/mod.rs `HexView::numbers_in_row`: starting at `i = 2`,
return `i - 1` at the first `i` whose row overflows `w`.  The source loop is
unbounded, so its termination is exactly the hypothesis `0 ≤ char_w`;
`Nat.find` is the first loop index at which the source returns. -/
def numbers_in_row (char_w w : ℚ) (h : 0 ≤ char_w) : Nat :=
  Nat.find (rowExceeds_exists char_w w h) - 1

/-- One committed single-byte edit, exactly as the two `TypeChar` call sites
in src/hex_view/mod.rs construct it: the recorded old values are read from the
current state (`old_byte = buffer.data[pos]`, old caret = current caret), the
target nibble/byte value and the new caret position are the edit's data.
`none` models the `buffer.data[pos]` panic of an out-of-range offset. -/
def commitAt (st : HexView) (pos new_caret new_byte : Nat) : Option HexView :=
  match st.buffer with
  | none => some st
  | some b =>
    match b.data.get? pos with
    | none => none
    | some old_byte =>
      st.commit_operation ⟨pos, st.cursor.position, old_byte, new_caret, new_byte⟩

/-- A sequence of committed single-byte edits, first edit first. -/
def commitAll (st : HexView) : List (Nat × Nat × Nat) → Option HexView
  | [] => some st
  | (pos, nc, nv) :: rest => (commitAt st pos nc nv).bind (commitAll · rest)

/-- `n` consecutive `HexView.undo` calls. -/
def undoN (st : HexView) : Nat → Option HexView
  | 0 => some st
  | n + 1 => st.undo.bind (undoN · n)

/-- The observable part of the state the round-trip law speaks about, after
committing the edits of `l` and undoing `l.length` times. -/
def afterRoundTrip (st : HexView) (l : List (Nat × Nat × Nat)) :
    Option (Option DataBuffer × Nat × List UndoChangeByte) :=
  ((commitAll st l).bind fun s => undoN s l.length).map fun s =>
    (s.buffer, s.cursor.position, s.undo_buffer)

/-- The caret position of an operation's result state is defined (no panic)
and at most `bound`. -/
def posLe (o : Option HexView) (bound : Nat) : Bool :=
  match o with
  | none => false
  | some s => s.cursor.position ≤ bound

/- Concrete states used by the counterexamples and witnesses. -/

/-- A dirty session: one committed edit (`0x41 ↦ 0x51` at offset 0), never
saved (`last_save = 0`). -/
def dirtySession : HexView :=
  { cursor := ⟨1, false, true, EditMode.Hex⟩
    buffer := some ⟨[0x51]⟩
    last_save := 0
    undo_buffer := [⟨0, 0, 0x41, 1, 0x51⟩]
    redo_buffer := [] }

/-- A one-byte buffer with the caret at position 0 and no history. -/
def oneByteSession : HexView :=
  { cursor := ⟨0, false, true, EditMode.Hex⟩
    buffer := some ⟨[0x41]⟩
    last_save := 0
    undo_buffer := []
    redo_buffer := [] }

/-- A loaded but empty buffer. -/
def emptySession : HexView :=
  { cursor := ⟨0, false, true, EditMode.Hex⟩
    buffer := some ⟨[]⟩
    last_save := 0
    undo_buffer := []
    redo_buffer := [] }

/-- Two bytes, caret on the second byte (position 2). -/
def twoByteSession : HexView :=
  { cursor := ⟨2, false, true, EditMode.Hex⟩
    buffer := some ⟨[0x41, 0x42]⟩
    last_save := 0
    undo_buffer := []
    redo_buffer := [] }

/-- The search scenario of the spec: buffer `[0x00, 0xAB, 0xCD, 0xAB, 0xCD]`,
caret at the start. -/
def searchSession : HexView :=
  { cursor := ⟨0, false, true, EditMode.Hex⟩
    buffer := some ⟨[0x00, 0xAB, 0xCD, 0xAB, 0xCD]⟩
    last_save := 0
    undo_buffer := []
    redo_buffer := [] }

/-- The edit scenario of the spec: buffer `"ABC"`, caret at position 0. -/
def abcSession : HexView :=
  { cursor := ⟨0, false, true, EditMode.Hex⟩
    buffer := some ⟨[0x41, 0x42, 0x43]⟩
    last_save := 0
    undo_buffer := []
    redo_buffer := [] }

/-- The dirty session right after a successful save (`last_save = 1`). -/
def savedSession : HexView :=
  { dirtySession with last_save := 1 }

/-! Claim theorems. -/

/-- C1: the claim says a failed save leaves the dirty flag unchanged.  The
code updates `last_save` BEFORE the fallible write, so on a dirty session a
save that fails with an I/O error flips `is_dirty` from `true` to `false`:
the code contradicts the claim (and the spec's stated mark-clean-on-success
intent). -/
theorem save_io_failure_clears_dirty :
    dirtySession.is_dirty = true ∧
    (dirtySession.save false).2 = SaveResult.ioError ∧
    (dirtySession.save false).1.is_dirty = false := by decide

/-- C8: the claim says the needle is built by pairing the surviving hex
digits and that no input fails.  The code pairs by the character's index in
the RAW string (`chars().enumerate()`, parity `i % 2`), so a space before a
digit desynchronises the pairing: `" A"` panics on `res.pop().unwrap()`
(modelled `none`), and `"A B"` yields `[0xA0, 0xB0]` where `"AB"` yields
`[0xAB]`. -/
theorem pattern_needle_raw_index_pairing :
    get_pattern_needle [' ', 'A'] = none ∧
    get_pattern_needle ['A', ' ', 'B'] = some [0xA0, 0xB0] ∧
    get_pattern_needle ['A', 'B'] = some [0xAB] := by decide

/-- C2 counterexample: `PageDown` discards its clamp (`let _ =`), so on a
one-byte buffer (`2*len - 1 = 1`) a page-down of one row of one byte moves
the caret to position `2`, outside the claimed range; and `MoveCaret` on an
empty buffer underflows `(len - 1) * 2` (panic, modelled `none`) instead of
clamping the position to `0`. -/
theorem pageDown_escapes_range_cex :
    (oneByteSession.pageDown 1 1).map (fun s => s.cursor.position) = some 2 ∧
    ¬ (2 ≤ 2 * 1 - 1) ∧
    emptySession.moveCaret 5 = none := by decide

/-- C2 amended: on a nonempty buffer, `MoveCaret` with ANY raw position (the
arrow, home and end keys all route through it) lands in `[0, 2*len - 1]`, and
`PageUp`'s saturating subtraction keeps an in-range caret in range; `PageDown`
is excluded (its clamp result is discarded), and on an empty buffer
`MoveCaret` underflows instead of yielding `0`. -/
theorem caret_ops_stay_in_range (st : HexView) (b : DataBuffer) (raw lc nr : Nat)
    (hb : st.buffer = some b) (hne : b.data ≠ []) :
    posLe (st.moveCaret raw) (2 * b.data.length - 1) = true ∧
    (st.cursor.position ≤ 2 * b.data.length - 1 →
      (st.pageUp lc nr).cursor.position ≤ 2 * b.data.length - 1) := by
  have hlen : b.data.length ≠ 0 := fun h0 => hne (List.length_eq_zero.mp h0)
  constructor
  · simp only [HexView.moveCaret, hb, posLe]
    rw [if_neg hlen]
    simp only [decide_eq_true_eq]
    omega
  · intro h
    simp only [HexView.pageUp]
    omega

/-- Witness for `caret_ops_stay_in_range` on the one-byte session. -/
theorem caret_ops_stay_in_range_witness :
    oneByteSession.buffer = some ⟨[0x41]⟩ ∧
    (⟨[0x41]⟩ : DataBuffer).data ≠ [] ∧
    posLe (oneByteSession.moveCaret 5) (2 * 1 - 1) = true ∧
    (oneByteSession.pageUp 1 1).cursor.position ≤ 2 * 1 - 1 := by
  have h := caret_ops_stay_in_range oneByteSession ⟨[0x41]⟩ 5 1 1 rfl (by decide)
  exact ⟨rfl, by decide, h.1, h.2 (by decide)⟩

/-- C7 counterexample: immediately after a successful save (`last_save`
equals the undo depth) the session is clean, but one `undo()` — with no
commit in between — changes the undo depth and makes `is_dirty` report
`true` again. -/
theorem undo_after_save_makes_dirty_cex :
    savedSession.is_dirty = false ∧
    savedSession.undo.map HexView.is_dirty = some true := by decide

/-- C7 amended: `is_dirty()` is false immediately after a successful save,
and every operation that leaves the undo stack and saved depth untouched
(caret movement, paging, mode switch, searching) preserves the dirty flag;
an `undo()` or `redo()` that changes the stack depth can make the session
dirty again before any commit, because dirtiness is the structural
comparison `undo depth ≠ last_save`. -/
theorem clean_after_save_until_depth_changes (st : HexView) (b : DataBuffer)
    (hb : st.buffer = some b) :
    (st.save true).1.is_dirty = false ∧
    (∀ raw st', st.moveCaret raw = some st' → st'.is_dirty = st.is_dirty) ∧
    (∀ lc nr, (st.pageUp lc nr).is_dirty = st.is_dirty) ∧
    (∀ lc nr st', st.pageDown lc nr = some st' → st'.is_dirty = st.is_dirty) ∧
    (st.switchMode.is_dirty = st.is_dirty) ∧
    (∀ needle pr, st.find_next needle = some pr → pr.1.is_dirty = st.is_dirty) ∧
    (∀ needle pr, st.find_previous needle = some pr → pr.1.is_dirty = st.is_dirty) := by
  refine ⟨?_, ?_, ?_, ?_, rfl, ?_, ?_⟩
  · simp [HexView.save, hb, HexView.is_dirty]
  · intro raw st' h
    simp only [HexView.moveCaret, hb] at h
    split at h
    · exact absurd h (by simp)
    · cases h; rfl
  · intro lc nr; rfl
  · intro lc nr st' h
    simp only [HexView.pageDown, hb] at h
    cases h; rfl
  · intro needle pr h
    simp only [HexView.find_next, hb] at h
    split at h <;> cases h <;> rfl
  · intro needle pr h
    simp only [HexView.find_previous, hb] at h
    split at h
    · exact absurd h (by simp)
    · cases h; rfl
    · cases h; rfl

/-- Witness for `clean_after_save_until_depth_changes` on the dirty
one-edit session. -/
theorem clean_after_save_witness :
    dirtySession.buffer = some ⟨[0x51]⟩ ∧
    (dirtySession.save true).1.is_dirty = false ∧
    (dirtySession.pageUp 1 1).is_dirty = dirtySession.is_dirty ∧
    dirtySession.switchMode.is_dirty = dirtySession.is_dirty := by
  have h := clean_after_save_until_depth_changes dirtySession ⟨[0x51]⟩ rfl
  exact ⟨rfl, h.1, h.2.2.1 1 1, h.2.2.2.2.1⟩

/-- C10: in Hex mode, typing a character that is not an ASCII hex digit is a
complete no-op on the session state (buffer, caret, mode, undo and redo
stacks all unchanged, no record committed), provided the caret addresses a
byte inside the buffer — the source reads `buffer.data[pos]` before the digit
test, so an out-of-range caret panics instead. -/
theorem typeChar_nonhex_noop (st : HexView) (b : DataBuffer) (ch : Char)
    (hb : st.buffer = some b) (hpos : st.cursor.position / 2 < b.data.length)
    (hmode : st.cursor.in_hex = EditMode.Hex) (hch : is_ascii_hexdigit ch = false) :
    st.typeChar ch = some st := by
  simp [HexView.typeChar, hb, hmode, hch, List.getElem?_eq_getElem hpos]

/-- Witness for `typeChar_nonhex_noop`: typing a letter that is not a hex
digit on the one-byte session changes nothing. -/
theorem typeChar_nonhex_noop_witness :
    oneByteSession.buffer = some ⟨[0x41]⟩ ∧
    oneByteSession.cursor.position / 2 < (⟨[0x41]⟩ : DataBuffer).data.length ∧
    oneByteSession.cursor.in_hex = EditMode.Hex ∧
    is_ascii_hexdigit 'g' = false ∧
    oneByteSession.typeChar 'g' = some oneByteSession :=
  ⟨rfl, by decide, rfl, by decide,
    typeChar_nonhex_noop oneByteSession ⟨[0x41]⟩ 'g' rfl (by decide) rfl (by decide)⟩

/-- C6: `get_byte` fails (panics, modelled `none`) exactly when the offset is
at least the buffer length, and `set_byte` fails under the same condition;
otherwise `get_byte` returns the byte at the offset and `set_byte` replaces
exactly that byte, preserving the length and every other byte. -/
theorem get_set_byte_spec (b : DataBuffer) (o v : Nat) :
    (b.get_byte o = none ↔ b.data.length ≤ o) ∧
    (b.set_byte o v = none ↔ b.data.length ≤ o) ∧
    (∀ b', b.set_byte o v = some b' →
      b'.get_byte o = some v ∧ b'.data.length = b.data.length ∧
      ∀ j, j ≠ o → b'.get_byte j = b.get_byte j) ∧
    (∀ h : o < b.data.length, b.get_byte o = some (b.data.get ⟨o, h⟩)) := by
  refine ⟨?_, ?_, ?_, ?_⟩
  · simp [DataBuffer.get_byte, List.get?_eq_none]
  · simp only [DataBuffer.set_byte]
    split
    · simp; omega
    · simp; omega
  · intro b' h
    simp only [DataBuffer.set_byte] at h
    split at h
    · cases h
      refine ⟨?_, by simp, ?_⟩
      · simpa [DataBuffer.get_byte] using List.getElem?_set_eq_of_lt v (by assumption)
      · intro j hj
        simp [DataBuffer.get_byte, List.getElem?_set_ne (Ne.symm hj)]
    · exact absurd h (by simp)
  · intro h
    simp [DataBuffer.get_byte, List.get?_eq_get h]

/-- Witness for `get_set_byte_spec` on a two-byte buffer. -/
theorem get_set_byte_spec_witness :
    (DataBuffer.set_byte ⟨[3, 7]⟩ 0 9 = some ⟨[9, 7]⟩) ∧
    (DataBuffer.get_byte ⟨[9, 7]⟩ 0 = some 9) ∧
    ((⟨[9, 7]⟩ : DataBuffer).data.length = (⟨[3, 7]⟩ : DataBuffer).data.length) ∧
    (DataBuffer.get_byte ⟨[9, 7]⟩ 1 = DataBuffer.get_byte ⟨[3, 7]⟩ 1) ∧
    (DataBuffer.get_byte ⟨[3, 7]⟩ 5 = none) := by
  have h := get_set_byte_spec ⟨[3, 7]⟩ 0 9
  have hset : DataBuffer.set_byte ⟨[3, 7]⟩ 0 9 = some ⟨[9, 7]⟩ := by decide
  have h3 := h.2.2.1 ⟨[9, 7]⟩ hset
  exact ⟨hset, h3.1, h3.2.1, h3.2.2 1 (by decide),
    (get_set_byte_spec ⟨[3, 7]⟩ 5 9).1.mpr (by decide)⟩

/-- C9: the row-layout solver always returns at least one byte per row, and
for fixed font metrics its result is monotonically non-decreasing in the
available width (the loop's exit index can only grow when the width grows). -/
theorem numbers_in_row_pos_mono (char_w w w1 w2 : ℚ) (h : 0 ≤ char_w) (h12 : w1 ≤ w2) :
    1 ≤ numbers_in_row char_w w h ∧
    numbers_in_row char_w w1 h ≤ numbers_in_row char_w w2 h := by
  constructor
  · have hspec := Nat.find_spec (rowExceeds_exists char_w w h)
    have h2 : 2 ≤ Nat.find (rowExceeds_exists char_w w h) := hspec.1
    unfold numbers_in_row
    omega
  · have hmono : Nat.find (rowExceeds_exists char_w w1 h) ≤
        Nat.find (rowExceeds_exists char_w w2 h) := by
      apply Nat.find_mono
      intro n hn
      exact ⟨hn.1, lt_of_le_of_lt h12 hn.2⟩
    unfold numbers_in_row
    omega

/-- Witness for `numbers_in_row_pos_mono` at unit font width. -/
theorem numbers_in_row_pos_mono_witness :
    (0 : ℚ) ≤ 1 ∧ (10 : ℚ) ≤ 20 ∧
    1 ≤ numbers_in_row 1 30 (by norm_num) ∧
    numbers_in_row 1 10 (by norm_num) ≤ numbers_in_row 1 20 (by norm_num) := by
  have h1 := numbers_in_row_pos_mono 1 30 10 20 (by norm_num) (by norm_num)
  exact ⟨by norm_num, by norm_num, h1.1, h1.2⟩

/-- The forward scan with an empty needle stops at the very first visited
offset: `starts_with(&[])` is always true. -/
theorem findNextFrom_nil (data : List Nat) (i : Nat) :
    findNextFrom data [] i = if i < data.length then some i else none := by
  unfold findNextFrom
  rcases Nat.lt_or_ge i data.length with h | h
  · obtain ⟨f, hf⟩ : ∃ f, data.length - i = f + 1 := ⟨data.length - i - 1, by omega⟩
    rw [hf]
    unfold findNextAux
    simp [matchAt, List.isPrefixOf, h]
  · have h0 : data.length - i = 0 := by omega
    rw [h0]
    unfold findNextAux
    simp [Nat.not_lt.mpr h]

/-- The backward scan with an empty needle stops at the first visited offset
`k - 1` (when `k > 0` and that offset does not over-run the slice bound). -/
theorem findPrevFrom_nil (data : List Nat) (k : Nat) (hk : k ≤ data.length + 1) :
    findPrevFrom data [] k = if 0 < k then some (some (k - 1)) else some none := by
  cases k with
  | zero => simp [findPrevFrom]
  | succ n =>
    unfold findPrevFrom
    have hn : ¬ data.length < n := by omega
    simp [hn, matchAt, List.isPrefixOf]

/-- C3 counterexample: the claim says an empty needle reports no match and
leaves the caret alone, but `starts_with(&[])` is always true, so `find_next`
with an empty needle succeeds immediately, and `find_previous` with an empty
needle moves the caret from position 2 back to position 0 and succeeds. -/
theorem empty_needle_matches_cex :
    (oneByteSession.find_next []).map Prod.snd = some true ∧
    (twoByteSession.find_previous []).map (fun pr => (pr.1.cursor.position, pr.2)) =
      some (0, true) ∧
    twoByteSession.cursor.position = 2 := by decide

/-- C3 amended: an empty needle behaves as a match-everywhere pattern, not as
"no match": `find_next` succeeds exactly when the caret's byte offset is
still inside the buffer, snapping the caret to the start of its current byte,
and `find_previous` succeeds exactly when the caret's byte offset is
positive, moving the caret to the preceding byte; only at the respective
buffer end do they return false with the caret unchanged. -/
theorem find_empty_needle (st : HexView) (b : DataBuffer)
    (hb : st.buffer = some b) (hk : st.cursor.position / 2 ≤ b.data.length) :
    st.find_next [] =
      (if st.cursor.position / 2 < b.data.length
       then some ({ st with cursor := { st.cursor with position := st.cursor.position / 2 * 2 } }, true)
       else some (st, false)) ∧
    st.find_previous [] =
      (if 0 < st.cursor.position / 2
       then some ({ st with cursor := { st.cursor with position := (st.cursor.position / 2 - 1) * 2 } }, true)
       else some (st, false)) := by
  constructor
  · rcases Nat.lt_or_ge (st.cursor.position / 2) b.data.length with h | h
    · simp only [HexView.find_next, hb, findNextFrom_nil, if_pos h]
    · simp only [HexView.find_next, hb, findNextFrom_nil, if_neg (Nat.not_lt.mpr h)]
  · have hrw := findPrevFrom_nil b.data (st.cursor.position / 2) (by omega)
    rcases Nat.eq_zero_or_pos (st.cursor.position / 2) with h | h
    · simp only [HexView.find_previous, hb, hrw, h, if_neg (lt_irrefl 0)]
      rfl
    · simp only [HexView.find_previous, hb, hrw, if_pos h]

/-- Witness for `find_empty_needle` on the two-byte session with the caret on
the second byte. -/
theorem find_empty_needle_witness :
    twoByteSession.buffer = some ⟨[0x41, 0x42]⟩ ∧
    twoByteSession.cursor.position / 2 ≤ (⟨[0x41, 0x42]⟩ : DataBuffer).data.length ∧
    twoByteSession.find_next [] =
      some ({ twoByteSession with
              cursor := { twoByteSession.cursor with position := twoByteSession.cursor.position / 2 * 2 } }, true) ∧
    twoByteSession.find_previous [] =
      some ({ twoByteSession with
              cursor := { twoByteSession.cursor with position := (twoByteSession.cursor.position / 2 - 1) * 2 } }, true) := by
  have h := find_empty_needle twoByteSession ⟨[0x41, 0x42]⟩ rfl (by decide)
  refine ⟨rfl, by decide, ?_, ?_⟩
  · rw [h.1]; decide
  · rw [h.2]; decide

/-- A nonempty needle can only match at an offset strictly inside the data. -/
theorem matchAt_lt_length (data needle : List Nat) (m : Nat) (hne : needle ≠ [])
    (h : matchAt data needle m = true) : m < data.length := by
  unfold matchAt at h
  have hp : needle <+: data.drop m := List.isPrefixOf_iff_prefix.mp h
  have hlen : needle.length ≤ data.length - m := by simpa using hp.length_le
  have hpos : 0 < needle.length := List.length_pos.mpr hne
  omega

/-- The fuelled forward scan hits `m` exactly when `m` is the first matching
offset in the visited window. -/
theorem findNextAux_eq_some (data needle : List Nat) (fuel : Nat) :
    ∀ i m, (findNextAux data needle fuel i = some m ↔
      i ≤ m ∧ m < i + fuel ∧ matchAt data needle m = true ∧
      ∀ j, i ≤ j → j < m → matchAt data needle j = false) := by
  induction fuel with
  | zero =>
    intro i m
    constructor
    · intro h; exact absurd h (by simp [findNextAux])
    · rintro ⟨h1, h2, -, -⟩; exact absurd h2 (by omega)
  | succ f ih =>
    intro i m
    simp only [findNextAux]
    by_cases hm : matchAt data needle i = true
    · rw [if_pos hm]
      constructor
      · intro h
        have him : i = m := by simpa using h
        subst him
        exact ⟨le_refl i, by omega, hm, fun j hj1 hj2 => absurd hj2 (by omega)⟩
      · rintro ⟨h1, h2, h3, h4⟩
        rcases Nat.lt_or_ge i m with hlt | hge
        · exact absurd (h4 i (le_refl i) hlt) (by simp [hm])
        · have : i = m := le_antisymm h1 hge
          rw [this]
    · have hmf : matchAt data needle i = false := by simpa using hm
      rw [if_neg hm, ih (i + 1) m]
      constructor
      · rintro ⟨h1, h2, h3, h4⟩
        refine ⟨by omega, by omega, h3, fun j hj1 hj2 => ?_⟩
        rcases Nat.eq_or_lt_of_le hj1 with rfl | hlt
        · exact hmf
        · exact h4 j (by omega) hj2
      · rintro ⟨h1, h2, h3, h4⟩
        have hne : i ≠ m := fun he => by rw [← he, hmf] at h3; cases h3
        exact ⟨by omega, by omega, h3, fun j hj1 hj2 => h4 j (by omega) hj2⟩

/-- `findNextFrom` hits `m` exactly when `m` is the least matching offset at
or after the start. -/
theorem findNextFrom_eq_some (data needle : List Nat) (i m : Nat) :
    findNextFrom data needle i = some m ↔
      i ≤ m ∧ m < data.length ∧ matchAt data needle m = true ∧
      ∀ j, i ≤ j → j < m → matchAt data needle j = false := by
  unfold findNextFrom
  rw [findNextAux_eq_some]
  constructor
  · rintro ⟨h1, h2, h3, h4⟩; exact ⟨h1, by omega, h3, h4⟩
  · rintro ⟨h1, h2, h3, h4⟩; exact ⟨h1, by omega, h3, h4⟩

/-- The fuelled forward scan misses exactly when no visited offset matches. -/
theorem findNextAux_eq_none (data needle : List Nat) (fuel : Nat) :
    ∀ i, (findNextAux data needle fuel i = none ↔
      ∀ j, i ≤ j → j < i + fuel → matchAt data needle j = false) := by
  induction fuel with
  | zero =>
    intro i
    constructor
    · intro _ j hj1 hj2; exact absurd hj2 (by omega)
    · intro _; rfl
  | succ f ih =>
    intro i
    simp only [findNextAux]
    by_cases hm : matchAt data needle i = true
    · rw [if_pos hm]
      constructor
      · intro h; cases h
      · intro h; exact absurd (h i (le_refl i) (by omega)) (by simp [hm])
    · have hmf : matchAt data needle i = false := by simpa using hm
      rw [if_neg hm, ih (i + 1)]
      constructor
      · intro h j hj1 hj2
        rcases Nat.eq_or_lt_of_le hj1 with rfl | hlt
        · exact hmf
        · exact h j (by omega) (by omega)
      · intro h j hj1 hj2
        exact h j (by omega) (by omega)

/-- `findNextFrom` misses exactly when no offset at or after the start
matches. -/
theorem findNextFrom_eq_none (data needle : List Nat) (i : Nat) :
    findNextFrom data needle i = none ↔
      ∀ j, i ≤ j → j < data.length → matchAt data needle j = false := by
  unfold findNextFrom
  rw [findNextAux_eq_none]
  constructor
  · intro h j hj1 hj2; exact h j hj1 (by omega)
  · intro h j hj1 hj2; exact h j hj1 (by omega)

/-- The backward scan from below `k` hits `m` exactly when `m` is the
greatest matching offset below `k`. -/
theorem findPrevFrom_eq_some_some (data needle : List Nat) :
    ∀ k, k ≤ data.length + 1 → ∀ m,
      (findPrevFrom data needle k = some (some m) ↔
        m < k ∧ matchAt data needle m = true ∧
        ∀ j, m < j → j < k → matchAt data needle j = false) := by
  intro k
  induction k with
  | zero =>
    intro _ m
    constructor
    · intro h; exact absurd h (by simp [findPrevFrom])
    · rintro ⟨h1, -, -⟩; exact absurd h1 (Nat.not_lt_zero m)
  | succ n ih =>
    intro hk m
    have hn : ¬ data.length < n := by omega
    simp only [findPrevFrom, if_neg hn]
    by_cases hm : matchAt data needle n = true
    · rw [if_pos hm]
      constructor
      · intro h
        have hnm : n = m := by simpa using h
        subst hnm
        exact ⟨by omega, hm, fun j hj1 hj2 => absurd hj2 (by omega)⟩
      · rintro ⟨h1, h2, h3⟩
        rcases Nat.lt_or_ge m n with hlt | hge
        · exact absurd (h3 n hlt (by omega)) (by simp [hm])
        · have : m = n := by omega
          rw [this]
    · have hmf : matchAt data needle n = false := by simpa using hm
      rw [if_neg hm, ih (by omega) m]
      constructor
      · rintro ⟨h1, h2, h3⟩
        refine ⟨by omega, h2, fun j hj1 hj2 => ?_⟩
        rcases Nat.lt_or_ge j n with hlt | hge
        · exact h3 j hj1 hlt
        · have : j = n := by omega
          rw [this]; exact hmf
      · rintro ⟨h1, h2, h3⟩
        have hne : m ≠ n := fun he => by rw [he, hmf] at h2; cases h2
        exact ⟨by omega, h2, fun j hj1 hj2 => h3 j hj1 (by omega)⟩

/-- The backward scan from below `k` exhausts exactly when no offset below
`k` matches. -/
theorem findPrevFrom_eq_some_none (data needle : List Nat) :
    ∀ k, k ≤ data.length + 1 →
      (findPrevFrom data needle k = some none ↔
        ∀ j, j < k → matchAt data needle j = false) := by
  intro k
  induction k with
  | zero =>
    intro _
    constructor
    · intro _ j hj; exact absurd hj (Nat.not_lt_zero j)
    · intro _; rfl
  | succ n ih =>
    intro hk
    have hn : ¬ data.length < n := by omega
    simp only [findPrevFrom, if_neg hn]
    by_cases hm : matchAt data needle n = true
    · rw [if_pos hm]
      constructor
      · intro h; exact absurd h (by simp)
      · intro h; exact absurd (h n (by omega)) (by simp [hm])
    · have hmf : matchAt data needle n = false := by simpa using hm
      rw [if_neg hm, ih (by omega)]
      constructor
      · intro h j hj
        rcases Nat.lt_or_ge j n with hlt | hge
        · exact h j hlt
        · have : j = n := by omega
          rw [this]; exact hmf
      · intro h j hj; exact h j (by omega)

/-- C4: with a nonempty needle and the caret at byte offset `k` (position
`2k`, any offset inside the buffer), `find_next` succeeds at the LEAST
matching offset `m ≥ k` and moves the caret to `2m`, and reports `false`
with the state untouched when no offset `≥ k` matches; `find_previous`
succeeds at the GREATEST matching offset `m < k` and moves the caret to
`2m`, and reports `false` with the state untouched when no offset `< k`
matches; neither search wraps, and only `cursor.position` changes (the edit
mode, in particular, is preserved on every path). -/
theorem find_nonempty_correct (st : HexView) (b : DataBuffer) (needle : List Nat) (k : Nat)
    (hb : st.buffer = some b) (hp : st.cursor.position = 2 * k)
    (hk : k ≤ b.data.length) (hne : needle ≠ []) :
    (∀ m, k ≤ m → matchAt b.data needle m = true →
        (∀ j, k ≤ j → j < m → matchAt b.data needle j = false) →
        st.find_next needle =
          some ({ st with cursor := { st.cursor with position := m * 2 } }, true)) ∧
    ((∀ m, k ≤ m → matchAt b.data needle m = false) →
        st.find_next needle = some (st, false)) ∧
    (∀ m, m < k → matchAt b.data needle m = true →
        (∀ j, m < j → j < k → matchAt b.data needle j = false) →
        st.find_previous needle =
          some ({ st with cursor := { st.cursor with position := m * 2 } }, true)) ∧
    ((∀ m, m < k → matchAt b.data needle m = false) →
        st.find_previous needle = some (st, false)) := by
  have hdiv : st.cursor.position / 2 = k := by omega
  refine ⟨?_, ?_, ?_, ?_⟩
  · intro m h1 h2 h3
    have hres : findNextFrom b.data needle (st.cursor.position / 2) = some m := by
      rw [hdiv, findNextFrom_eq_some]
      exact ⟨h1, matchAt_lt_length b.data needle m hne h2, h2, h3⟩
    simp [HexView.find_next, hb, hres]
  · intro hnone
    have hres : findNextFrom b.data needle (st.cursor.position / 2) = none := by
      rw [hdiv, findNextFrom_eq_none]
      exact fun j hj _ => hnone j hj
    simp [HexView.find_next, hb, hres]
  · intro m h1 h2 h3
    have hres : findPrevFrom b.data needle (st.cursor.position / 2) = some (some m) := by
      rw [hdiv]
      rw [findPrevFrom_eq_some_some b.data needle k (by omega) m]
      exact ⟨h1, h2, h3⟩
    simp [HexView.find_previous, hb, hres]
  · intro hnone
    have hres : findPrevFrom b.data needle (st.cursor.position / 2) = some none := by
      rw [hdiv]
      rw [findPrevFrom_eq_some_none b.data needle k (by omega)]
      exact fun j hj => hnone j hj
    simp [HexView.find_previous, hb, hres]

/-- Witness for `find_nonempty_correct`: the spec's concrete scenario —
buffer `[0x00, 0xAB, 0xCD, 0xAB, 0xCD]`, needle `[0xAB, 0xCD]`, caret at
byte offset 0: `find_next` lands on byte offset 1 (caret position 2) and
`find_previous` finds nothing before offset 0. -/
theorem find_nonempty_correct_witness :
    searchSession.buffer = some ⟨[0x00, 0xAB, 0xCD, 0xAB, 0xCD]⟩ ∧
    searchSession.cursor.position = 2 * 0 ∧
    0 ≤ (⟨[0x00, 0xAB, 0xCD, 0xAB, 0xCD]⟩ : DataBuffer).data.length ∧
    ([0xAB, 0xCD] : List Nat) ≠ [] ∧
    searchSession.find_next [0xAB, 0xCD] =
      some ({ searchSession with
              cursor := { searchSession.cursor with position := 1 * 2 } }, true) ∧
    searchSession.find_previous [0xAB, 0xCD] = some (searchSession, false) := by
  have h := find_nonempty_correct searchSession ⟨[0x00, 0xAB, 0xCD, 0xAB, 0xCD]⟩
    [0xAB, 0xCD] 0 rfl rfl (by decide) (by decide)
  refine ⟨rfl, rfl, by decide, by decide, ?_, ?_⟩
  · refine h.1 1 (by omega) (by decide) ?_
    intro j hj1 hj2
    have hj0 : j = 0 := by omega
    subst hj0
    decide
  · refine h.2.2.2 ?_
    intro m hm
    exact absurd hm (Nat.not_lt_zero m)

/-- Writing back the byte a position already holds leaves the list unchanged. -/
theorem set_get_self (l : List Nat) (i : Nat) (h : i < l.length) :
    l.set i (l.get ⟨i, h⟩) = l := by
  induction l generalizing i with
  | nil => exact absurd h (by simp)
  | cons a t ih =>
    cases i with
    | zero => rfl
    | succ n =>
      have ht : n < t.length := by simpa using h
      simpa [List.set] using congrArg (List.cons a) (ih n ht)

/-- Peeling the LAST of `n + 1` undos: `n + 1` undos are `n` undos followed
by one more. -/
theorem undoN_succ_back (n : Nat) : ∀ s : HexView,
    undoN s (n + 1) = (undoN s n).bind HexView.undo := by
  induction n with
  | zero =>
    intro s
    show s.undo.bind (undoN · 0) = (some s).bind HexView.undo
    rw [Option.some_bind]
    cases h : s.undo with
    | none => rfl
    | some s1 => rfl
  | succ m ih =>
    intro s
    show s.undo.bind (undoN · (m + 1)) = (s.undo.bind (undoN · m)).bind HexView.undo
    cases h : s.undo with
    | none => rfl
    | some s1 =>
      simp only [Option.some_bind]
      exact ih s1

/-- Committing one edit at an in-range offset: the committed state explicitly.
(The pushed record's old byte and old caret are read from the current state,
as at the `TypeChar` call sites.) -/
theorem commitAt_eq (st : HexView) (b : DataBuffer) (pos nc nv : Nat)
    (hb : st.buffer = some b) (hpos : pos < b.data.length) :
    commitAt st pos nc nv = some
      { st with
        cursor := { st.cursor with position := nc }
        buffer := some ⟨b.data.set pos nv⟩
        undo_buffer := ⟨pos, st.cursor.position, b.data.get ⟨pos, hpos⟩, nc, nv⟩ :: st.undo_buffer
        redo_buffer := [] } := by
  have hget : b.data.get? pos = some (b.data.get ⟨pos, hpos⟩) := List.get?_eq_get hpos
  simp [commitAt, hb, hget, HexView.commit_operation, UndoChangeByte.redo,
    DataBuffer.set_byte, hpos]

/-- One `undo()` on a state whose undo stack starts with `op` and whose
buffer contains `op.position`: the resulting state explicitly. -/
theorem undo_step (s : HexView) (b : DataBuffer) (op : UndoChangeByte)
    (rest : List UndoChangeByte) (hb : s.buffer = some b)
    (hstack : s.undo_buffer = op :: rest) (hpos : op.position < b.data.length) :
    s.undo = some
      { s with
        cursor := { s.cursor with position := op.old_caret_pos }
        buffer := some ⟨b.data.set op.position op.old_value⟩
        undo_buffer := rest
        redo_buffer := op :: s.redo_buffer } := by
  simp [HexView.undo, hstack, UndoChangeByte.undo, hb, DataBuffer.set_byte, hpos]

/-- Round-trip induction: committing the edits of `l` (all at in-range
offsets) succeeds, and `l.length` undos then restore the buffer, the caret
position and the undo stack. -/
theorem roundtrip_aux (l : List (Nat × Nat × Nat)) :
    ∀ (st : HexView) (b : DataBuffer), st.buffer = some b →
      (∀ e ∈ l, e.1 < b.data.length) →
      ∃ st' st'', commitAll st l = some st' ∧ undoN st' l.length = some st'' ∧
        st''.buffer = st.buffer ∧ st''.cursor.position = st.cursor.position ∧
        st''.undo_buffer = st.undo_buffer := by
  induction l with
  | nil =>
    intro st b hb _
    exact ⟨st, st, rfl, rfl, rfl, rfl, rfl⟩
  | cons e rest ih =>
    obtain ⟨pos, nc, nv⟩ := e
    intro st b hb hvalid
    have hpos : pos < b.data.length := hvalid (pos, nc, nv) (List.mem_cons_self _ _)
    have hc := commitAt_eq st b pos nc nv hb hpos
    have hvalid1 : ∀ e ∈ rest, e.1 < (DataBuffer.mk (b.data.set pos nv)).data.length := by
      intro e he
      simpa using hvalid e (List.mem_cons_of_mem _ he)
    obtain ⟨st', st'', h1, h2, h3, h4, h5⟩ :=
      ih { st with
            cursor := { st.cursor with position := nc }
            buffer := some ⟨b.data.set pos nv⟩
            undo_buffer := ⟨pos, st.cursor.position, b.data.get ⟨pos, hpos⟩, nc, nv⟩ :: st.undo_buffer
            redo_buffer := [] }
        ⟨b.data.set pos nv⟩ rfl hvalid1
    have hu := undo_step st'' ⟨b.data.set pos nv⟩
      ⟨pos, st.cursor.position, b.data.get ⟨pos, hpos⟩, nc, nv⟩ st.undo_buffer
      h3 h5 (by simpa using hpos)
    refine ⟨st',
      { st'' with
        cursor := { st''.cursor with position := st.cursor.position }
        buffer := some ⟨(b.data.set pos nv).set pos (b.data.get ⟨pos, hpos⟩)⟩
        undo_buffer := st.undo_buffer
        redo_buffer := ⟨pos, st.cursor.position, b.data.get ⟨pos, hpos⟩, nc, nv⟩ :: st''.redo_buffer },
      ?_, ?_, ?_, rfl, rfl⟩
    · show (commitAt st pos nc nv).bind (commitAll · rest) = some st'
      rw [hc, Option.some_bind]
      exact h1
    · show undoN st' (rest.length + 1) = _
      rw [undoN_succ_back, h2, Option.some_bind]
      exact hu
    · show some (⟨(b.data.set pos nv).set pos (b.data.get ⟨pos, hpos⟩)⟩ : DataBuffer) = st.buffer
      rw [hb, List.set_set, set_get_self b.data pos hpos]

/-- C5: a sequence of `n` committed single-byte edits (each committed through
`commit_operation` with the old byte and old caret read from the current
state, as at the call sites) followed by exactly `n` `undo()` calls restores
the buffer's bytes and the caret position (and the undo stack) exactly. -/
theorem commit_undo_roundtrip (st : HexView) (b : DataBuffer) (l : List (Nat × Nat × Nat))
    (hb : st.buffer = some b) (hvalid : ∀ e ∈ l, e.1 < b.data.length) :
    afterRoundTrip st l = some (st.buffer, st.cursor.position, st.undo_buffer) := by
  obtain ⟨st', st'', h1, h2, h3, h4, h5⟩ := roundtrip_aux l st b hb hvalid
  unfold afterRoundTrip
  rw [h1, Option.some_bind, h2, Option.map_some', h3, h4, h5]

/-- Witness for `commit_undo_roundtrip`: the spec's concrete scenario — on
buffer `"ABC"`, commit the high-nibble edit `0x41 ↦ 0x51` at offset 0 (caret
0 → 1), then undo once: bytes, caret and history are back. -/
theorem commit_undo_roundtrip_witness :
    abcSession.buffer = some ⟨[0x41, 0x42, 0x43]⟩ ∧
    0 < (⟨[0x41, 0x42, 0x43]⟩ : DataBuffer).data.length ∧
    afterRoundTrip abcSession [(0, 1, 0x51)] =
      some (abcSession.buffer, abcSession.cursor.position, abcSession.undo_buffer) :=
  ⟨rfl, by decide,
    commit_undo_roundtrip abcSession ⟨[0x41, 0x42, 0x43]⟩ [(0, 1, 0x51)] rfl (by decide)⟩

end CosmicHex
